import Mathlib

/-!
Shallow embedding of the semantic-analysis core in `src/compiler/semantics.cpp`
(SourcePawn compiler fork).  Each definition mirrors one source function; cells
are 32-bit signed integers modelled as `Int` with explicit wrapping.
-/

namespace SemaModel

/-- Value identifier kinds (`ident` field of `value`), from `symbols.h`. -/
inductive Ident where
  | variable_
  | reference
  | array
  | refarray
  | arraycell
  | arraychar
  | accessor
  | constexpr_
  | functn
  | expression
  | methodmap
  | enumstruct
  | varargs
  deriving DecidableEq, Repr

/-- Statement flow types (`FlowType` in the source). -/
inductive FlowType where
  | fNone
  | fBreak
  | fContinue
  | fReturn
  | fMixed
  deriving DecidableEq, Repr

/-- The slice of the type registry that `IsTypeBinaryConstantFoldable` inspects:
a type is an enum, the native integer type (tagid 0), or something else
(bool, float, String, void, ...). -/
inductive Ty where
  | intTy      -- tagid() == 0
  | enumTy     -- isEnum()
  | boolTy
  | floatTy
  | stringTy
  | otherTy
  deriving DecidableEq, Repr

/-- `IsTypeBinaryConstantFoldable` (semantics.cpp:907-913). -/
def IsTypeBinaryConstantFoldable (t : Ty) : Bool :=
  match t with
  | .enumTy => true
  | .intTy => true
  | _ => false

/-- Binary operator tokens that can appear on a `BinaryExpr`.  The switch in
`BinaryExpr::FoldToConstant` handles the first eleven; `eq`/`ne` (and any
other non-assignment token) fall into the `default` branch. -/
inductive BinToken where
  | mul | div | mod | add | sub
  | shl | shr | shru
  | band | bxor | bor
  | eq | ne
  | assign   -- any token for which IsAssignOp() is true
  deriving DecidableEq, Repr

/-- `IsAssignOp` restricted to the tokens modelled here. -/
def isAssignOp (t : BinToken) : Bool :=
  match t with
  | .assign => true
  | _ => false

/-- 32-bit two's-complement wrap of an integer. -/
def wrap (z : Int) : Int :=
  (z + 2 ^ 31) % 2 ^ 32 - 2 ^ 31

def int32Min : Int := -(2 ^ 31)

/-- Unsigned view of a cell (for `>>>`). -/
def toU32 (z : Int) : Int := z % 2 ^ 32

/-- Outcome of a `FoldToConstant` call: a folded cell value, a plain failure
(`return false` with no report), or a failure after reporting diagnostic `n`. -/
inductive FoldOutcome where
  | folded (v : Int)
  | nofold
  | diag (n : Nat)
  deriving DecidableEq, Repr

/-- `BinaryExpr::FoldToConstant` (semantics.cpp:915-980), given that both
operands' `EvalConst` succeeded with values `lval`, `rval` and types `lty`,
`rty`.  `userop` models `userop_.sym != nullptr`. -/
def binaryFoldToConstant (tok : BinToken) (userop : Bool)
    (lval : Int) (lty : Ty) (rval : Int) (rty : Ty) : FoldOutcome :=
  if isAssignOp tok || userop then .nofold
  else if !(IsTypeBinaryConstantFoldable lty && IsTypeBinaryConstantFoldable rty) then
    .nofold
  else
    match tok with
    | .mul => .folded (wrap (lval * rval))
    | .div =>
      if rval = 0 then .diag 93
      else if lval = int32Min && rval = -1 then .diag 97
      else .folded (Int.tdiv lval rval)
    | .mod =>
      if rval = 0 then .diag 93
      else if lval = int32Min && rval = -1 then .diag 97
      else .folded (Int.tmod lval rval)
    | .add => .folded (wrap (lval + rval))
    | .sub => .folded (wrap (lval - rval))
    | .shl => .folded (wrap (lval * 2 ^ rval.toNat))
    | .shr => .folded (Int.fdiv lval (2 ^ rval.toNat))
    | .shru => .folded (wrap (Int.fdiv (toU32 lval) (2 ^ rval.toNat)))
    | .band => .folded (wrap (Int.land (toU32 lval) (toU32 rval)))
    | .bxor => .folded (wrap (Int.xor (toU32 lval) (toU32 rval)))
    | .bor => .folded (wrap (Int.lor (toU32 lval) (toU32 rval)))
    | _ => .nofold

/-- `TernaryExpr::FoldToConstant` (semantics.cpp:1175-1188).  The arguments
are the `EvalConst` outcomes of the three operands.  The source tests
`!first_->EvalConst(...) || second_->EvalConst(...) || !third_->EvalConst(...)`
— note the missing `!` on the second operand — and on the surviving path
computes `cond ? left : right` where `left` was only written if the second
operand's `EvalConst` succeeded; `garbage` stands for the indeterminate value
of the uninitialized local `left` on that path. -/
def ternaryFoldToConstant (garbage : Int)
    (c l r : Option Int) : FoldOutcome :=
  match c with
  | none => .nofold
  | some cv =>
    match l with
    | some _ => .nofold
    | none =>
      match r with
      | none => .nofold
      | some rv => .folded (if cv ≠ 0 then garbage else rv)

/-- The behaviour the spec states for ternary folding: if the condition and
both branches fold, the result is the second operand's value when the
condition is nonzero and the third's otherwise. -/
def ternaryFoldSpec (c l r : Option Int) : FoldOutcome :=
  match c, l, r with
  | some cv, some lv, some rv => .folded (if cv ≠ 0 then lv else rv)
  | _, _, _ => .nofold

/-- The operator tokens actually handled by the switch in
`BinaryExpr::FoldToConstant`; every other token reaches the `default`
branch and folding fails. -/
def binFoldHandledToken (t : BinToken) : Bool :=
  match t with
  | .mul | .div | .mod | .add | .sub | .shl | .shr | .shru
  | .band | .bxor | .bor => true
  | _ => false

/-- The division guards of `BinaryExpr::FoldToConstant`: for `/` and `%` the
divisor must be nonzero and `(INT32_MIN, -1)` is rejected. -/
def divGuardsPass (t : BinToken) (lval rval : Int) : Bool :=
  if t = .div ∨ t = .mod then
    if rval = 0 then false
    else if lval = int32Min ∧ rval = -1 then false
    else true
  else true

/-- Value descriptor (`value` struct): `ident`, `tag`, origin symbol,
`constval`, accessor.  Symbols and accessors are identified by handles. -/
structure Val where
  ident : Ident
  tag : Nat := 0
  sym : Option Nat := none
  constval : Int := 0
  accessor : Option Nat := none
  deriving DecidableEq, Repr

/-- A checked expression: its value descriptor and `lvalue` bit. -/
structure ExprV where
  val : Val
  lvalue : Bool
  deriving DecidableEq, Repr

/-- The value computed by the `RvalueExpr` constructor (semantics.cpp:483-495)
from the wrapped expression's value: an `iACCESSOR` is downgraded to
`iEXPRESSION` (after marking the getter read); everything else is copied. -/
def rvalueVal (v : Val) : Val :=
  if v.ident = .accessor then { v with ident := .expression } else v

/-- The `RvalueExpr` constructor itself: its `assert(expr_->lvalue())` is
modelled by returning `none` when the wrapped expression's l-value bit is
clear.  An `RvalueExpr` node's own l-value bit is never set. -/
def rvalueCtor (e : ExprV) : Option ExprV :=
  if e.lvalue then some { val := rvalueVal e.val, lvalue := false } else none

/-- The guarded wrap pattern used at every `if (x->lvalue()) x = new
RvalueExpr(x);` site in the checker. -/
def wrapRvalueIfLvalue (e : ExprV) : Option ExprV :=
  if e.lvalue then rvalueCtor e else some e

/-- The value produced for a methodmap property access
(semantics.cpp:1606-1615), the only place an `iACCESSOR` value is created:
`val.ident = iACCESSOR; val.tag = method->property_tag(); val.accessor =
method;` followed by `expr->set_lvalue(true)`. -/
def fieldAccessAccessorResult (propertyTag : Nat) (method : Nat) : ExprV :=
  { val := { ident := .accessor, tag := propertyTag, sym := none,
             constval := 0, accessor := some method },
    lvalue := true }

/-- Value merge in `Semantics::CheckTernaryExpr` (semantics.cpp:1159-1171):
start from the second operand's value; switch to the third's when both are
`iARRAY`, the second is a literal string (negative `constval`) and its
`constval` compares greater; then rewrite the chosen ident
(`iARRAY → iREFARRAY`, anything else but `iREFARRAY` → `iEXPRESSION`). -/
def ternaryMergeRewrite (v : Val) : Val :=
  if v.ident = .array then { v with ident := .refarray }
  else if v.ident ≠ .refarray then { v with ident := .expression }
  else v

def ternaryMergeVal (left right : Val) : Val :=
  ternaryMergeRewrite
    (if left.ident = .array ∧ right.ident = .array ∧ left.constval < 0 ∧
        left.constval > right.constval then right else left)

/-- The capacity encoded in a literal array value's `constval`: literal
strings carry `-(length + 1)`, literal arrays their element count. -/
def literalCapacity (v : Val) : Int :=
  if v.constval < 0 then -v.constval else v.constval

/-- Flow-type merge for an if statement with both branches
(semantics.cpp:2390-2397); the statement's flow starts out `Flow_None`. -/
def ifMergeFlow (a b : FlowType) : FlowType :=
  if a = b then a
  else if a ≠ .fNone ∧ b ≠ .fNone then .fMixed
  else .fNone

/-- Case-label processing loop of `Semantics::CheckSwitchStmt`
(semantics.cpp:2938-2959), restricted to labels whose `CheckExpr` succeeded.
Each label is the outcome of `EvalConst` (`none` = does not fold).  `seen`
is the `case_values` set.  The output records, per label in order, the
diagnostic reported for it (8: label does not fold, 40: duplicate value). -/
def switchLabelDiagsGo (seen : List Int) : List (Option Int) → List (Option Nat)
  | [] => []
  | none :: rest => some 8 :: switchLabelDiagsGo seen rest
  | some v :: rest =>
    if v ∈ seen then some 40 :: switchLabelDiagsGo seen rest
    else none :: switchLabelDiagsGo (v :: seen) rest

def switchLabelDiags (labels : List (Option Int)) : List (Option Nat) :=
  switchLabelDiagsGo [] labels

/-- A sub-expression of a comma expression after checking: its value,
l-value bit and `HasSideEffects()` result. -/
structure CommaItem where
  val : Val
  lvalue : Bool
  sideEffects : Bool
  deriving DecidableEq, Repr

/-- `Semantics::CheckCommaExpr` (semantics.cpp:1333-1357), assuming every
sub-expression checked successfully.  Returns the comma expression's value,
l-value bit and side-effect bit; `none` for an empty list (cannot occur). -/
def checkCommaExpr (items : List CommaItem) : Option (Val × Bool × Bool) :=
  match items.getLast? with
  | none => none
  | some last =>
    let hasSE := items.any (·.sideEffects)
    let last :=
      if items.length > 1 ∧ last.lvalue then
        { val := rvalueVal last.val, lvalue := false, sideEffects := last.sideEffects }
      else last
    let v := last.val
    let v :=
      if items.length > 1 ∧ v.ident = .constexpr_ then { v with ident := .expression }
      else v
    some (v, last.lvalue, hasSE)

/-- The `AstKind::ExprStmt` arm of `Semantics::CheckStmt`
(semantics.cpp:117-119): `return CheckExpr(stmt->to<ExprStmt>()->expr());`.
Inputs are the result of `CheckExpr` and the expression's
`HasSideEffects()`; output is the success flag and the diagnostics this arm
itself reports (none). -/
def checkStmtExprStmtArm (exprOk : Bool) (_hasSideEffects : Bool) : Bool × List Nat :=
  (exprOk, [])

/-- `Semantics::CheckExprStmt` (semantics.cpp:2404-2411): check the
expression, then report warning 215 when it has no side effects.  This
function is not reachable from `CheckStmt`'s dispatch. -/
def checkExprStmt (exprOk hasSideEffects : Bool) : Bool × List Nat :=
  if !exprOk then (false, [])
  else if !hasSideEffects then (true, [215])
  else (true, [])

/-- The per-function symbol state consulted by the driver's post-pass. -/
structure FuncSym where
  is_public : Bool
  native : Bool
  stock : Bool
  defined : Bool
  read : Bool            -- usage & uREAD
  returns_value : Bool
  always_returns : Bool
  deriving DecidableEq, Repr

/-- Body statements: user statements, or the synthesized bare return. -/
inductive StmtM where
  | user (id : Nat)
  | syntheticReturn
  deriving DecidableEq, Repr

/-- A function body block: statement list and flow type. -/
structure Body where
  stmts : List StmtM
  flow : FlowType
  deriving DecidableEq, Repr

/-- `Semantics::CheckFunctionReturnUsage` (semantics.cpp:3120-3137), effect
on the body block (the `ReportFunctionReturnError` diagnostics are elided):
unless the function both returns a value and always returns, a bare
`ReturnStmt` is appended and the block's flow set to `Flow_Return`. -/
def checkFunctionReturnUsage (sym : FuncSym) (body : Body) : Body :=
  if sym.returns_value && sym.always_returns then body
  else { stmts := body.stmts ++ [.syntheticReturn], flow := .fReturn }

/-- The `iFUNCTN` branch of `Semantics::TestSymbol` (semantics.cpp:2430-2453),
effect on the function's body during the driver post-pass: an unused,
non-native, non-stock, non-public defined function is reported (203) and the
branch returns before `CheckFunctionReturnUsage` runs; otherwise, if the
function has a body, `CheckFunctionReturnUsage` is applied. -/
def testSymbolFunc (sym : FuncSym) (hasBody : Bool) (body : Body) : Body :=
  if !sym.read && !(sym.native || sym.stock || sym.is_public) && sym.defined then
    body
  else if hasBody then checkFunctionReturnUsage sym body
  else body

/-- Constant-to-Expression downgrade applied by `CheckCommaExpr` when the
comma expression has more than one sub-expression. -/
def commaConstDowngrade (w : Val) : Val :=
  if w.ident = .constexpr_ then { w with ident := .expression } else w

/- ### Helper lemmas -/

theorem natAbs_tmod_eq (a b : Int) : (a.tmod b).natAbs = a.natAbs % b.natAbs := by
  cases a <;> cases b <;> simp [Int.tmod, Int.natAbs_neg] <;> rfl

/-- Truncated 32-bit division stays in 32-bit signed range away from the
guarded `INT32_MIN / -1` case. -/
theorem tdiv_in_range (l r : Int) (hl1 : int32Min ≤ l) (hl2 : l < 2 ^ 31)
    (hr0 : r ≠ 0) (hno : ¬(l = int32Min ∧ r = -1)) :
    int32Min ≤ Int.tdiv l r ∧ Int.tdiv l r < 2 ^ 31 := by
  have habs : (Int.tdiv l r).natAbs = l.natAbs / r.natAbs := Int.natAbs_tdiv l r
  have hle : (Int.tdiv l r).natAbs ≤ l.natAbs := by
    rw [habs]; exact Nat.div_le_self _ _
  have hla : l.natAbs ≤ 2 ^ 31 := by unfold int32Min at hl1; omega
  have h1 : (Int.tdiv l r).natAbs ≤ 2 ^ 31 := Nat.le_trans hle hla
  by_cases heq : Int.tdiv l r = 2 ^ 31
  · exfalso
    have hq : (Int.tdiv l r).natAbs = 2 ^ 31 := by rw [heq]; rfl
    have hdiv : l.natAbs / r.natAbs = 2 ^ 31 := by rw [← habs, hq]
    have hl31 : l.natAbs = 2 ^ 31 := by omega
    have hEq : l.natAbs / r.natAbs = l.natAbs := by rw [hdiv, hl31]
    rcases Nat.div_eq_self.mp hEq with h0 | hone
    · omega
    · have hr1 : r = 1 ∨ r = -1 := by omega
      rcases hr1 with rfl | rfl
      · rw [Int.tdiv_one] at heq; omega
      · exact hno ⟨by unfold int32Min; omega, rfl⟩
  · unfold int32Min; omega

/-- The truncated 32-bit remainder stays in 32-bit signed range. -/
theorem tmod_in_range (l r : Int)
    (hr1 : int32Min ≤ r) (hr2 : r < 2 ^ 31) (hr0 : r ≠ 0) :
    int32Min ≤ Int.tmod l r ∧ Int.tmod l r < 2 ^ 31 := by
  have hrpos : 0 < r.natAbs := by omega
  have hlt : (Int.tmod l r).natAbs < r.natAbs := by
    rw [natAbs_tmod_eq]; exact Nat.mod_lt _ hrpos
  have hra : r.natAbs ≤ 2 ^ 31 := by unfold int32Min at hr1; omega
  unfold int32Min; omega

theorem switchLabelDiagsGo_spec (labels : List (Option Int)) :
    ∀ (seen : List Int) (i : Nat),
      ((switchLabelDiagsGo seen labels)[i]? = some (some 40) ↔
        ∃ v, labels[i]? = some (some v) ∧
          (v ∈ seen ∨ ∃ j, j < i ∧ labels[j]? = some (some v))) ∧
      ((switchLabelDiagsGo seen labels)[i]? = some (some 8) ↔
        labels[i]? = some none) := by
  induction labels with
  | nil => intro seen i; simp [switchLabelDiagsGo]
  | cons lbl rest ih =>
    intro seen i
    cases lbl with
    | none =>
      cases i with
      | zero => simp [switchLabelDiagsGo]
      | succ k =>
        have h := ih seen k
        simp only [switchLabelDiagsGo, List.getElem?_cons_succ]
        constructor
        · rw [h.1]
          constructor
          · rintro ⟨v, hv, hrec⟩
            refine ⟨v, hv, ?_⟩
            rcases hrec with hs | ⟨j, hj, hg⟩
            · exact Or.inl hs
            · exact Or.inr ⟨j + 1, by omega, by simpa using hg⟩
          · rintro ⟨v, hv, hrec⟩
            refine ⟨v, hv, ?_⟩
            rcases hrec with hs | ⟨j, hj, hg⟩
            · exact Or.inl hs
            · cases j with
              | zero => simp at hg
              | succ j2 => exact Or.inr ⟨j2, by omega, by simpa using hg⟩
        · exact h.2
    | some v =>
      cases i with
      | zero =>
        by_cases hmem : v ∈ seen <;> simp [switchLabelDiagsGo, hmem]
      | succ k =>
        by_cases hmem : v ∈ seen
        · have h := ih seen k
          simp only [switchLabelDiagsGo, if_pos hmem, List.getElem?_cons_succ]
          constructor
          · rw [h.1]
            constructor
            · rintro ⟨w, hw, hrec⟩
              refine ⟨w, hw, ?_⟩
              rcases hrec with hs | ⟨j, hj, hg⟩
              · exact Or.inl hs
              · exact Or.inr ⟨j + 1, by omega, by simpa using hg⟩
            · rintro ⟨w, hw, hrec⟩
              refine ⟨w, hw, ?_⟩
              rcases hrec with hs | ⟨j, hj, hg⟩
              · exact Or.inl hs
              · cases j with
                | zero =>
                  have hwv : w = v := by simpa using hg.symm
                  exact Or.inl (hwv ▸ hmem)
                | succ j2 => exact Or.inr ⟨j2, by omega, by simpa using hg⟩
          · exact h.2
        · have h := ih (v :: seen) k
          simp only [switchLabelDiagsGo, if_neg hmem, List.getElem?_cons_succ]
          constructor
          · rw [h.1]
            constructor
            · rintro ⟨w, hw, hrec⟩
              refine ⟨w, hw, ?_⟩
              rcases hrec with hs | ⟨j, hj, hg⟩
              · rcases List.mem_cons.mp hs with rfl | hs2
                · exact Or.inr ⟨0, by omega, by simp⟩
                · exact Or.inl hs2
              · exact Or.inr ⟨j + 1, by omega, by simpa using hg⟩
            · rintro ⟨w, hw, hrec⟩
              refine ⟨w, hw, ?_⟩
              rcases hrec with hs | ⟨j, hj, hg⟩
              · exact Or.inl (List.mem_cons_of_mem _ hs)
              · cases j with
                | zero =>
                  have hwv : w = v := by simpa using hg.symm
                  exact Or.inl (by simp [hwv])
                | succ j2 => exact Or.inr ⟨j2, by omega, by simpa using hg⟩
          · exact h.2

/- ### Claim theorems -/

/-- Claim C1 (code bug).  The spec says a ternary folds when the condition
and both branches fold, but `TernaryExpr::FoldToConstant` inverts the test
on the second operand (`second_->EvalConst(...)` with no `!`), so folding
fails on every ternary whose three operands all evaluate to constants; the
intended behaviour (`ternaryFoldSpec`) would fold to the second or third
value according to the condition. -/
theorem claim_c1_ternary_fold_bug (garbage cv lv rv : Int) :
    ternaryFoldToConstant garbage (some cv) (some lv) (some rv) = .nofold ∧
    ternaryFoldSpec (some cv) (some lv) (some rv) =
      .folded (if cv ≠ 0 then lv else rv) :=
  ⟨rfl, rfl⟩

/-- Claim C2, counterexample.  Both operand types of `1 == 1` are
binary-constant-foldable (native integer), yet `BinaryExpr::FoldToConstant`
returns false because `tlEQ` reaches the `default` branch of its switch,
refuting "succeeds if and only if both operand types are
binary-constant-foldable". -/
theorem claim_c2_counterexample :
    binaryFoldToConstant .eq false 1 .intTy 1 .intTy = .nofold ∧
    IsTypeBinaryConstantFoldable .intTy = true ∧
    isAssignOp .eq = false := by decide

/-- Claim C2, amended.  For a non-assignment binary expression with no
user-defined operator whose operands evaluate to constants,
`FoldToConstant` succeeds (producing a Constant value) if and only if both
operand types are binary-constant-foldable, the operator token is one of
the arithmetic or bitwise tokens handled by its switch, and for `/` and `%`
the division guards pass. -/
theorem claim_c2_amended (tok : BinToken) (lval : Int) (lty : Ty)
    (rval : Int) (rty : Ty) (hna : isAssignOp tok = false) :
    (∃ v, binaryFoldToConstant tok false lval lty rval rty = .folded v) ↔
      (IsTypeBinaryConstantFoldable lty = true ∧
       IsTypeBinaryConstantFoldable rty = true ∧
       binFoldHandledToken tok = true ∧
       divGuardsPass tok lval rval = true) := by
  cases hlt : IsTypeBinaryConstantFoldable lty
  · simp [binaryFoldToConstant, hna, hlt]
  · cases hrt : IsTypeBinaryConstantFoldable rty
    · simp [binaryFoldToConstant, hna, hlt, hrt]
    · cases tok <;>
        simp [binaryFoldToConstant, isAssignOp, hlt, hrt, binFoldHandledToken,
              divGuardsPass] <;>
        split_ifs <;> simp_all <;> tauto

/-- Claim C2 amended, witness: `3 * 4` over integer operands folds. -/
theorem claim_c2_witness :
    isAssignOp .mul = false ∧
    (∃ v, binaryFoldToConstant .mul false 3 .intTy 4 .intTy = .folded v) :=
  ⟨by decide,
   (claim_c2_amended .mul 3 .intTy 4 .intTy (by decide)).mpr
     (by decide)⟩

/-- Claim C3.  For a constant-foldable `/` or `%` binary expression:
division by zero reports diagnostic 93 and fails; `INT32_MIN / -1` (and the
corresponding `%`) reports diagnostic 97 and fails; otherwise the folded
result is the truncated quotient or remainder, which moreover stays inside
the 32-bit signed range whenever the operands are in range. -/
theorem claim_c3_div_mod (lval rval : Int) (lty rty : Ty)
    (hl : IsTypeBinaryConstantFoldable lty = true)
    (hr : IsTypeBinaryConstantFoldable rty = true) :
    (rval = 0 →
      binaryFoldToConstant .div false lval lty rval rty = .diag 93 ∧
      binaryFoldToConstant .mod false lval lty rval rty = .diag 93) ∧
    (lval = int32Min ∧ rval = -1 →
      binaryFoldToConstant .div false lval lty rval rty = .diag 97 ∧
      binaryFoldToConstant .mod false lval lty rval rty = .diag 97) ∧
    (rval ≠ 0 → ¬(lval = int32Min ∧ rval = -1) →
      binaryFoldToConstant .div false lval lty rval rty =
        .folded (Int.tdiv lval rval) ∧
      binaryFoldToConstant .mod false lval lty rval rty =
        .folded (Int.tmod lval rval) ∧
      (int32Min ≤ lval → lval < 2 ^ 31 → int32Min ≤ rval → rval < 2 ^ 31 →
        (int32Min ≤ Int.tdiv lval rval ∧ Int.tdiv lval rval < 2 ^ 31) ∧
        (int32Min ≤ Int.tmod lval rval ∧ Int.tmod lval rval < 2 ^ 31))) := by
  refine ⟨?_, ?_, ?_⟩
  · intro h0
    subst h0
    simp [binaryFoldToConstant, isAssignOp, hl, hr]
  · rintro ⟨h1, h2⟩
    subst h1; subst h2
    simp [binaryFoldToConstant, isAssignOp, hl, hr, int32Min]
  · intro h0 hno
    refine ⟨?_, ?_, ?_⟩
    · simp [binaryFoldToConstant, isAssignOp, hl, hr, h0, hno]
    · simp [binaryFoldToConstant, isAssignOp, hl, hr, h0, hno]
    · intro ha hb hc hd
      exact ⟨tdiv_in_range lval rval ha hb h0 hno, tmod_in_range lval rval hc hd h0⟩

/-- Claim C3, witness: `-7 / 2` and `-7 % 2` fold to the C-style truncated
results, `1 / 0` reports diagnostic 93, and `INT32_MIN / -1` reports 97. -/
theorem claim_c3_witness :
    binaryFoldToConstant .div false (-7) .intTy 2 .enumTy = .folded (-3) ∧
    binaryFoldToConstant .mod false (-7) .intTy 2 .enumTy = .folded (-1) ∧
    binaryFoldToConstant .div false 1 .intTy 0 .intTy = .diag 93 ∧
    binaryFoldToConstant .mod false int32Min .intTy (-1) .intTy = .diag 97 := by
  have h1 := claim_c3_div_mod (-7) 2 .intTy .enumTy rfl rfl
  have h2 := claim_c3_div_mod 1 0 .intTy .intTy rfl rfl
  have h3 := claim_c3_div_mod int32Min (-1) .intTy .intTy rfl rfl
  obtain ⟨hq, hm, -⟩ := h1.2.2 (by decide) (by decide)
  refine ⟨?_, ?_, (h2.1 rfl).1, (h3.2.1 ⟨rfl, rfl⟩).2⟩
  · rw [hq]; decide
  · rw [hm]; decide

/-- Claim C4, counterexample.  With a one-element literal array as the
second branch and a two-element literal array as the third, the third
branch has the larger capacity, yet `CheckTernaryExpr` keeps the second
branch (the swap only triggers when the second operand has a negative,
literal-string `constval`), refuting "the resulting value descriptor is
that of the branch with the larger capacity". -/
theorem claim_c4_counterexample :
    (ternaryMergeVal { ident := Ident.array, constval := 1 }
        { ident := Ident.array, constval := 2 }).constval = 1 ∧
    literalCapacity { ident := Ident.array, constval := 2 } >
      literalCapacity { ident := Ident.array, constval := 1 } := by decide

/-- Claim C4, amended.  The ternary keeps the second branch except that,
when both branches are arrays and the second is a literal string (negative
`constval`), the branch with the larger capacity is chosen (for literal
strings larger capacity means smaller `constval`, so the comparison is
flipped); capacities of non-literal second branches are never compared.
The chosen descriptor then has its ident rewritten by `ternaryMergeRewrite`. -/
theorem claim_c4_amended (l r : Val) :
    (l.ident = .array → r.ident = .array → l.constval < 0 → r.constval < 0 →
      l.constval ≠ r.constval →
      ternaryMergeVal l r =
        ternaryMergeRewrite
          (if literalCapacity l < literalCapacity r then r else l)) ∧
    (0 ≤ l.constval → ternaryMergeVal l r = ternaryMergeRewrite l) := by
  constructor
  · intro hl hr hlc hrc hne
    unfold ternaryMergeVal
    by_cases hgt : l.constval > r.constval
    · rw [if_pos ⟨hl, hr, hlc, hgt⟩,
         if_pos (by unfold literalCapacity; rw [if_pos hlc, if_pos hrc]; omega)]
    · rw [if_neg (by intro hcon; exact hgt hcon.2.2.2),
         if_neg (by unfold literalCapacity; rw [if_pos hlc, if_pos hrc]; omega)]
  · intro hpos
    unfold ternaryMergeVal
    rw [if_neg (by intro hcon; omega)]

/-- Claim C4 amended, witness: between the literal strings of capacities 3
and 5 the larger (more negative `constval`) wins; a non-negative second
branch is always kept. -/
theorem claim_c4_witness :
    ternaryMergeVal { ident := Ident.array, constval := -3 }
        { ident := Ident.array, constval := -5 } =
      ternaryMergeRewrite { ident := Ident.array, constval := -5 } ∧
    ternaryMergeVal { ident := Ident.array, constval := 1 }
        { ident := Ident.array, constval := 2 } =
      ternaryMergeRewrite { ident := Ident.array, constval := 1 } := by
  constructor
  · have h := (claim_c4_amended { ident := Ident.array, constval := -3 }
      { ident := Ident.array, constval := -5 }).1 rfl rfl (by decide) (by decide)
      (by decide)
    rw [h, if_pos (by decide)]
  · exact (claim_c4_amended { ident := Ident.array, constval := 1 }
      { ident := Ident.array, constval := 2 }).2 (by decide)

/-- Claim C5 (code bug).  `Semantics::CheckExprStmt` reports warning 215
for an expression statement with no side effects, exactly as the spec
says, but the `AstKind::ExprStmt` arm of `Semantics::CheckStmt` calls
`CheckExpr` directly and never reaches `CheckExprStmt`, so the statement
checker emits no warning for a side-effect-free expression statement. -/
theorem claim_c5_exprstmt_warning_skipped :
    checkStmtExprStmtArm true false = (true, []) ∧
    checkExprStmt true false = (true, [215]) := by decide

/-- Claim C6, counterexample.  When both branches of an if statement have
flow-type Break, the merged flow-type is Break, not None as the claim
states. -/
theorem claim_c6_counterexample :
    ifMergeFlow .fBreak .fBreak = .fBreak ∧ FlowType.fBreak ≠ FlowType.fNone := by
  decide

/-- Claim C6, amended.  The merged flow-type of an if statement with both
branches is: Return iff both branches have flow Return; the common flow
whenever the branches agree; Mixed iff the branches disagree and neither is
None (or both are already Mixed); and None iff at least one branch has
flow None. -/
theorem claim_c6_amended (a b : FlowType) :
    (ifMergeFlow a b = .fReturn ↔ a = .fReturn ∧ b = .fReturn) ∧
    (ifMergeFlow a b = .fMixed ↔
      ((a ≠ b ∧ a ≠ .fNone ∧ b ≠ .fNone) ∨ (a = .fMixed ∧ b = .fMixed))) ∧
    (ifMergeFlow a b = .fNone ↔ (a = .fNone ∨ b = .fNone)) ∧
    ifMergeFlow a a = a := by
  cases a <;> cases b <;> decide

/-- Claim C7.  In `CheckSwitchStmt`, a case label gets diagnostic 8 exactly
when its expression does not fold to a constant, and diagnostic 40 exactly
when its folded value equals the folded value of an earlier label of the
same switch; labels with distinct values get no diagnostic 40. -/
theorem claim_c7_switch_case_labels (labels : List (Option Int)) (i : Nat) :
    ((switchLabelDiags labels)[i]? = some (some 40) ↔
      ∃ v, labels[i]? = some (some v) ∧ ∃ j, j < i ∧ labels[j]? = some (some v)) ∧
    ((switchLabelDiags labels)[i]? = some (some 8) ↔ labels[i]? = some none) := by
  have h := switchLabelDiagsGo_spec labels [] i
  simpa [switchLabelDiags] using h

/-- Claim C8, counterexample.  A defined function that is never read and is
not public, native or stock is reported unused by `TestSymbol` and the
branch returns before `CheckFunctionReturnUsage`, so no synthetic return is
appended and the body flow stays None, refuting "for every function with a
body ... the final flow_type is Return". -/
theorem claim_c8_counterexample :
    testSymbolFunc
        { is_public := false, native := false, stock := false, defined := true,
          read := false, returns_value := false, always_returns := false }
        true { stmts := [], flow := .fNone } =
      { stmts := [], flow := .fNone } ∧
    FlowType.fNone ≠ FlowType.fReturn := by decide

/-- Claim C8, amended.  For every function with a body whose symbol is not
skipped by the unused-function early return of `TestSymbol` (it is read,
or native, stock or public, or not defined), if the function did not
already always return, the post-pass appends a synthetic bare return and
sets the body flow to Return. -/
theorem claim_c8_amended (sym : FuncSym) (body : Body)
    (hskip : sym.read = true ∨ sym.native = true ∨ sym.stock = true ∨
      sym.is_public = true ∨ sym.defined = false)
    (har : sym.always_returns = false) :
    testSymbolFunc sym true body =
      { stmts := body.stmts ++ [.syntheticReturn], flow := .fReturn } ∧
    (testSymbolFunc sym true body).flow = .fReturn := by
  rcases hskip with h | h | h | h | h <;>
    simp [testSymbolFunc, checkFunctionReturnUsage, h, har]

/-- Claim C8 amended, witness: a public function with a non-returning body
gets a synthetic return appended. -/
theorem claim_c8_witness :
    testSymbolFunc
        { is_public := true, native := false, stock := false, defined := true,
          read := false, returns_value := false, always_returns := false }
        true { stmts := [StmtM.user 0], flow := .fNone } =
      { stmts := [StmtM.user 0, StmtM.syntheticReturn], flow := .fReturn } :=
  (claim_c8_amended _ _ (Or.inr (Or.inr (Or.inr (Or.inl rfl)))) rfl).1

/-- Claim C9, counterexample.  In a comma expression with more than one
sub-expression whose last sub-expression is a constant, `CheckCommaExpr`
downgrades the resulting ident from Constant to Expression, so the overall
value descriptor differs from the last sub-expression value descriptor. -/
theorem claim_c9_counterexample :
    checkCommaExpr
        [{ val := { ident := Ident.expression }, lvalue := false, sideEffects := true },
         { val := { ident := Ident.constexpr_, constval := 7 }, lvalue := false,
           sideEffects := false }] =
      some ({ ident := Ident.expression, constval := 7 }, false, true) ∧
    Ident.expression ≠ Ident.constexpr_ := by decide

/-- Claim C9, amended.  For a comma expression whose sub-expressions all
check: the side-effect bit is the disjunction of the sub-expression
side-effect bits; with a single sub-expression the value and l-value bit
are exactly those of that sub-expression; with more than one, a trailing
l-value is first wrapped in an r-value conversion (clearing the l-value
bit) and a trailing Constant has its ident downgraded to Expression, all
other descriptor fields coming from the last sub-expression. -/
theorem claim_c9_amended (items : List CommaItem) (last : CommaItem)
    (hlast : items.getLast? = some last) :
    ∃ v lv se, checkCommaExpr items = some (v, lv, se) ∧
      se = items.any (·.sideEffects) ∧
      (items.length = 1 → v = last.val ∧ lv = last.lvalue) ∧
      (items.length > 1 → last.lvalue = true →
        v = commaConstDowngrade (rvalueVal last.val) ∧ lv = false) ∧
      (items.length > 1 → last.lvalue = false →
        v = commaConstDowngrade last.val ∧ lv = false) := by
  simp only [checkCommaExpr, hlast]
  by_cases hn : items.length > 1
  · by_cases hlv : last.lvalue = true
    · refine ⟨_, _, _, rfl, rfl, ?_, ?_, ?_⟩
      · intro h1; omega
      · intro _ _
        simp [commaConstDowngrade, hn, hlv]
      · intro _ hcon; rw [hlv] at hcon; cases hcon
    · have hlv2 : last.lvalue = false := by
        cases hcase : last.lvalue
        · rfl
        · exact absurd hcase hlv
      refine ⟨_, _, _, rfl, rfl, ?_, ?_, ?_⟩
      · intro h1; omega
      · intro _ hcon; rw [hlv2] at hcon; cases hcon
      · intro _ _
        have hcond : ¬(items.length > 1 ∧ last.lvalue = true) := by
          intro hcon; exact hlv hcon.2
        simp [if_neg hcond, commaConstDowngrade, hn, hlv2]
  · refine ⟨_, _, _, rfl, rfl, ?_, ?_, ?_⟩
    · intro _
      have hcond : ¬(items.length > 1 ∧ last.lvalue = true) := fun hcon => hn hcon.1
      simp [if_neg hcond, hn]
    · intro hcon; exact absurd hcon hn
    · intro hcon; exact absurd hcon hn

/-- Claim C9 amended, witness at a two-element comma whose last
sub-expression is a constant. -/
theorem claim_c9_witness :
    checkCommaExpr
        [{ val := { ident := Ident.expression }, lvalue := false, sideEffects := true },
         { val := { ident := Ident.constexpr_, constval := 7 }, lvalue := false,
           sideEffects := false }] =
      some (commaConstDowngrade { ident := Ident.constexpr_, constval := 7 },
            false, true) := by
  obtain ⟨v, lv, se, heq, hse, h1, h2, h3⟩ :=
    claim_c9_amended
      [{ val := { ident := Ident.expression }, lvalue := false, sideEffects := true },
       { val := { ident := Ident.constexpr_, constval := 7 }, lvalue := false,
         sideEffects := false }]
      { val := { ident := Ident.constexpr_, constval := 7 }, lvalue := false,
        sideEffects := false }
      (by simp)
  obtain ⟨hv, hlv⟩ := h3 (by simp) rfl
  rw [heq, hv, hlv, hse]
  rfl

/-- Claim C10.  Under the invariant that an accessor-valued expression has
its l-value bit set (which holds at the only accessor-creating site,
`CheckFieldAccessExpr`), every `RvalueExpr` creation site passes an
l-value to the constructor, so its assertion is unreachable; and wrapping
an accessor value downgrades the ident to Expression while copying every
other descriptor field. -/
theorem claim_c10_rvalue_safety (e : ExprV)
    (hacc : e.val.ident = .accessor → e.lvalue = true) :
    (wrapRvalueIfLvalue e).isSome = true ∧
    (e.val.ident = .accessor →
      rvalueCtor e =
        some { val := { e.val with ident := .expression }, lvalue := false }) ∧
    (∀ t m, (fieldAccessAccessorResult t m).lvalue = true ∧
      (fieldAccessAccessorResult t m).val.ident = .accessor) := by
  refine ⟨?_, ?_, ?_⟩
  · cases hlv : e.lvalue <;> simp [wrapRvalueIfLvalue, rvalueCtor, hlv]
  · intro hid
    simp [rvalueCtor, hacc hid, rvalueVal, hid]
  · intro t m
    exact ⟨rfl, rfl⟩

/-- Claim C10, witness at a concrete accessor-valued expression. -/
theorem claim_c10_witness :
    (wrapRvalueIfLvalue (fieldAccessAccessorResult 5 2)).isSome = true ∧
    ((fieldAccessAccessorResult 5 2).val.ident = .accessor →
      rvalueCtor (fieldAccessAccessorResult 5 2) =
        some { val := { (fieldAccessAccessorResult 5 2).val with
                        ident := .expression },
               lvalue := false }) ∧
    (∀ t m, (fieldAccessAccessorResult t m).lvalue = true ∧
      (fieldAccessAccessorResult t m).val.ident = .accessor) :=
  claim_c10_rvalue_safety (fieldAccessAccessorResult 5 2) (fun _ => rfl)

end SemaModel
